import Mathlib

/-!
Verification of the attendance-aggregation core of the
Recording-employee-attendance repository (`app/crud.py`, `app/models.py`).

The embedding models the persistence layer as in-memory lists kept in
insertion order (a SQL table read back without reordering), `datetime`
values as a calendar day (an integer count of days, with day 0 chosen to
be a Monday, matching Python's `date.weekday()` convention Monday = 0)
together with a rational time-of-day in seconds, and float arithmetic on
hours as exact rational arithmetic.
-/

namespace Attend

/-- A Python `datetime`: `day` counts calendar days from an epoch that
falls on a Monday; `tod` is the time-of-day in seconds.  `date.date()`
projects out `day`; `date.weekday()` is `day % 7`. -/
structure Datetime where
  day : Int
  tod : ℚ
  deriving DecidableEq, Repr

/-- Python `datetime.weekday()`: Monday = 0 … Sunday = 6. -/
def Datetime.weekday (d : Datetime) : Int := d.day % 7

/-- The instant of a `datetime`, in seconds (used by `total_seconds()`). -/
def Datetime.tsSec (d : Datetime) : ℚ := (d.day : ℚ) * 86400 + d.tod

/-- Python `datetime - timedelta(days=k)`: shifts the day, keeps the time-of-day. -/
def Datetime.subDays (d : Datetime) (k : Int) : Datetime := ⟨d.day - k, d.tod⟩

/-- Python `datetime + timedelta(days=k)`. -/
def Datetime.addDays (d : Datetime) (k : Int) : Datetime := ⟨d.day + k, d.tod⟩

/-- Row of the `attendance` table (`models.Attendance`); only the columns
the aggregators read are modelled. -/
structure Attendance where
  id : Nat
  user_id : Nat
  created_at : Datetime
  deriving DecidableEq, Repr

/-- Row of the `dailyattendance` table (`models.DailyAttendance`).
The Python class annotates `daily_attendance_hours : int`, but SQLModel
`table=True` models skip validation, so the object holds exactly the
float `crud.create_daily_attendance` computes; it is modelled as ℚ.
The Integer-typed stored column is the ambiguity the spec flags. -/
structure DailyAttendance where
  id : Nat
  user_id : Nat
  full_name : String
  attend_id : Int
  daily_attendance_hours : ℚ
  deriving DecidableEq, Repr

/-- Row of the `weeklyattendance` table (`models.WeeklyAttendance`). -/
structure WeeklyAttendance where
  id : Nat
  user_id : Nat
  full_name : String
  attend_id : Int
  weekly_attendance_hours : ℚ
  start_date : Datetime
  end_date : Datetime
  deriving DecidableEq, Repr

/-- The database state: the three tables, in row-insertion order, plus a
fresh-id counter standing in for uuid generation. -/
structure DB where
  attendance : List Attendance
  daily : List DailyAttendance
  weekly : List WeeklyAttendance
  nextId : Nat
  deriving DecidableEq, Repr

def dbEmpty : DB := ⟨[], [], [], 0⟩

/-- The filter of `crud.create_daily_attendance`'s SELECT:
`Attendance.user_id == user_id AND func.date(created_at) == date.date()`. -/
def eventMatches (user_id : Nat) (date : Datetime) (e : Attendance) : Bool :=
  e.user_id == user_id && e.created_at.day == date.day

/-- The query `session.exec(...).all()`: all matching attendance rows, in table
order (rows are inserted in creation order). -/
def eventsFor (db : DB) (user_id : Nat) (date : Datetime) : List Attendance :=
  db.attendance.filter (eventMatches user_id date)

/-- Embeds `crud.create_daily_attendance`.  Fetches the day's events; fewer than
two raises `ValueError("Insufficient attendance records for today")`
(rendered as `Except.error`, with the state returned untouched); else the
first two rows are check-in/check-out, hours is their difference in
seconds over 3600, and one `DailyAttendance` row is inserted.  The
`len < 2` guard is rendered as the two-cons pattern match. -/
def create_daily_attendance (db : DB) (user_id : Nat) (full_name : String)
    (attend_id : Int) (date : Datetime) : Except String DailyAttendance × DB :=
  match eventsFor db user_id date with
  | e0 :: e1 :: _ =>
    let daily_attendance_hours :=
      (e1.created_at.tsSec - e0.created_at.tsSec) / 3600
    let r := DailyAttendance.mk db.nextId user_id full_name attend_id
      daily_attendance_hours
    (.ok r, { db with daily := db.daily ++ [r], nextId := db.nextId + 1 })
  | _ => (.error "Insufficient attendance records for today", db)

/-- Computes `start_date = today - timedelta(days=today.weekday())`. -/
def weekStart (d : Datetime) : Datetime := d.subDays d.weekday

/-- Computes `end_date = start_date + timedelta(days=6)`. -/
def weekEnd (d : Datetime) : Datetime := (weekStart d).addDays 6

/-- The filter of `crud.create_weekly_attendance_or_update`'s SELECT:
same user and `func.date(start_date) <= date.date() <= func.date(end_date)`. -/
def weeklyMatchesDay (user_id : Nat) (day : Int) (b : WeeklyAttendance) : Bool :=
  b.user_id == user_id && decide (b.start_date.day ≤ day)
    && decide (day ≤ b.end_date.day)

/-- The query `session.exec(...).first()`: first matching weekly row in table order. -/
def findBucket (db : DB) (user_id : Nat) (date : Datetime) :
    Option WeeklyAttendance :=
  db.weekly.find? (weeklyMatchesDay user_id date.day)

/-- In-place mutation of the first row matching `p` (the object handed
back by `.first()` is mutated and committed). -/
def updateFirst (p : α → Bool) (f : α → α) : List α → List α
  | [] => []
  | x :: xs => if p x then f x :: xs else x :: updateFirst p f xs

/-- The in-place increment
`db_weekly_attendance.weekly_attendance_hours += daily_attendance_hours`. -/
def foldHours (h : ℚ) (x : WeeklyAttendance) : WeeklyAttendance :=
  { x with weekly_attendance_hours := x.weekly_attendance_hours + h }

/-- Embeds `crud.create_weekly_attendance_or_update`.  Computes the Monday-based
week window, looks up the first weekly row of this user whose
`[start_date, end_date]` date window contains `date`; if found its
`weekly_attendance_hours` is incremented in place, else a fresh row is
inserted with the computed window and the daily total. -/
def create_weekly_attendance_or_update (db : DB) (user_id : Nat)
    (full_name : String) (attend_id : Int) (daily_attendance_hours : ℚ)
    (date : Datetime) : WeeklyAttendance × DB :=
  let start_date := weekStart date
  let end_date := weekEnd date
  match findBucket db user_id date with
  | some b =>
    let b' := foldHours daily_attendance_hours b
    let weekly' := updateFirst (weeklyMatchesDay user_id date.day)
      (foldHours daily_attendance_hours) db.weekly
    (b', { db with weekly := weekly' })
  | none =>
    let b := WeeklyAttendance.mk db.nextId user_id full_name attend_id
      daily_attendance_hours start_date end_date
    (b, { db with weekly := db.weekly ++ [b], nextId := db.nextId + 1 })

/-- One requested weekly aggregation (the arguments of a call). -/
structure WeeklyCall where
  user_id : Nat
  full_name : String
  attend_id : Int
  hours : ℚ
  date : Datetime

/-- Sequential execution of a list of weekly aggregations. -/
def runWeekly (db : DB) : List WeeklyCall → DB
  | [] => db
  | c :: cs =>
    runWeekly (create_weekly_attendance_or_update db c.user_id c.full_name
      c.attend_id c.hours c.date).2 cs

/-- Well-formedness of a weekly bucket: a Monday-aligned seven-day window
(every bucket the aggregator creates has this shape). -/
def WFBucket (b : WeeklyAttendance) : Prop :=
  b.end_date.day = b.start_date.day + 6 ∧ b.start_date.day % 7 = 0

/-- All weekly rows are Monday-aligned week windows. -/
def WF (db : DB) : Prop := ∀ b ∈ db.weekly, WFBucket b

/-- For each user and calendar day, at most one weekly row covers it. -/
def AtMostOne (db : DB) : Prop :=
  ∀ (u : Nat) (day : Int), (db.weekly.countP (weeklyMatchesDay u day)) ≤ 1

/-! Concrete states used to exercise the theorems on explicit inputs. -/

def dbW1 : DB := ⟨[⟨10, 0, ⟨2, 0⟩⟩], [], [], 5⟩

def dbW2 : DB :=
  ⟨[⟨10, 0, ⟨2, 3600⟩⟩, ⟨11, 0, ⟨2, 23400⟩⟩], [], [], 0⟩

def dbW3 : DB :=
  ⟨[⟨10, 0, ⟨2, 3600⟩⟩, ⟨11, 0, ⟨2, 23400⟩⟩, ⟨12, 0, ⟨2, 80000⟩⟩],
    [], [], 0⟩

def dbW4 : DB :=
  ⟨[⟨10, 0, ⟨2, 30000⟩⟩, ⟨11, 0, ⟨2, 100⟩⟩], [], [], 0⟩

def dbW5 : DB := ⟨[], [], [⟨4, 3, "n", 1, 5, ⟨7, 100⟩, ⟨13, 100⟩⟩], 9⟩

def bC8 : WeeklyAttendance := ⟨0, 3, "n", 1, 5, ⟨0, 0⟩, ⟨6, 0⟩⟩

def dbC8 : DB := ⟨[], [], [bC8], 1⟩

end Attend

namespace Attend

/-! ### Daily aggregator claims -/

/-- C1: with fewer than 2 attendance events for the user on the date,
`create_daily_attendance` fails with the InsufficientRecords error and
returns the state unchanged (nothing is persisted). -/
theorem daily_insufficient_no_write (db : DB) (u : Nat) (fn : String)
    (aid : Int) (date : Datetime)
    (h : (eventsFor db u date).length < 2) :
    create_daily_attendance db u fn aid date =
      (.error "Insufficient attendance records for today", db) := by
  unfold create_daily_attendance
  rcases hev : eventsFor db u date with _ | ⟨e0, _ | ⟨e1, rest⟩⟩
  · rfl
  · rfl
  · rw [hev] at h; simp at h; omega

theorem daily_insufficient_no_write_witness :
    create_daily_attendance dbW1 0 "a" 1 ⟨2, 100⟩ =
      (.error "Insufficient attendance records for today", dbW1) :=
  daily_insufficient_no_write dbW1 0 "a" 1 ⟨2, 100⟩ (by decide)

/-- C2: the daily hours are exactly (check-out − check-in) in seconds over
3600, as a rational; in particular a 5h30m (19800 s) span persists 5.5. -/
theorem daily_hours_formula (db : DB) (u : Nat) (fn : String) (aid : Int)
    (date : Datetime) (e0 e1 : Attendance) (rest : List Attendance)
    (hev : eventsFor db u date = e0 :: e1 :: rest) :
    ∃ r : DailyAttendance,
      (create_daily_attendance db u fn aid date).1 = .ok r ∧
      r.daily_attendance_hours =
        (e1.created_at.tsSec - e0.created_at.tsSec) / 3600 ∧
      (create_daily_attendance db u fn aid date).2.daily = db.daily ++ [r] ∧
      (e1.created_at.tsSec = e0.created_at.tsSec + 19800 →
        r.daily_attendance_hours = 11 / 2) := by
  unfold create_daily_attendance
  rw [hev]
  refine ⟨_, rfl, rfl, rfl, fun hspan => ?_⟩
  simp only [hspan]
  ring_nf

theorem daily_hours_formula_witness :
    ∃ r : DailyAttendance,
      (create_daily_attendance dbW2 0 "a" 1 ⟨2, 0⟩).1 = .ok r ∧
      r.daily_attendance_hours =
        ((⟨2, 23400⟩ : Datetime).tsSec - (⟨2, 3600⟩ : Datetime).tsSec) / 3600 ∧
      (create_daily_attendance dbW2 0 "a" 1 ⟨2, 0⟩).2.daily = dbW2.daily ++ [r] ∧
      ((⟨2, 23400⟩ : Datetime).tsSec = (⟨2, 3600⟩ : Datetime).tsSec + 19800 →
        r.daily_attendance_hours = 11 / 2) :=
  daily_hours_formula dbW2 0 "a" 1 ⟨2, 0⟩ ⟨10, 0, ⟨2, 3600⟩⟩
    ⟨11, 0, ⟨2, 23400⟩⟩ [] (by decide)

/-- C7: with 2 or more events, exactly the first two rows (in table /
creation order) are used as check-in and check-out; any further events of
the day do not affect the computed hours: two stores agreeing on the first
two events of the day yield the same hours, whatever the tails are. -/
theorem daily_uses_first_two (db db' : DB) (u : Nat) (fn : String)
    (aid : Int) (date : Datetime) (e0 e1 : Attendance)
    (rest rest' : List Attendance)
    (hev : eventsFor db u date = e0 :: e1 :: rest)
    (hev' : eventsFor db' u date = e0 :: e1 :: rest') :
    ∃ r r' : DailyAttendance,
      (create_daily_attendance db u fn aid date).1 = .ok r ∧
      (create_daily_attendance db' u fn aid date).1 = .ok r' ∧
      r.daily_attendance_hours =
        (e1.created_at.tsSec - e0.created_at.tsSec) / 3600 ∧
      r'.daily_attendance_hours = r.daily_attendance_hours := by
  unfold create_daily_attendance
  rw [hev, hev']
  exact ⟨_, _, rfl, rfl, rfl, rfl⟩

theorem daily_uses_first_two_witness :
    ∃ r r' : DailyAttendance,
      (create_daily_attendance dbW2 0 "a" 1 ⟨2, 0⟩).1 = .ok r ∧
      (create_daily_attendance dbW3 0 "a" 1 ⟨2, 0⟩).1 = .ok r' ∧
      r.daily_attendance_hours =
        ((⟨2, 23400⟩ : Datetime).tsSec - (⟨2, 3600⟩ : Datetime).tsSec) / 3600 ∧
      r'.daily_attendance_hours = r.daily_attendance_hours :=
  daily_uses_first_two dbW2 dbW3 0 "a" 1 ⟨2, 0⟩ ⟨10, 0, ⟨2, 3600⟩⟩
    ⟨11, 0, ⟨2, 23400⟩⟩ [] [⟨12, 0, ⟨2, 80000⟩⟩] (by decide) (by decide)

/-- C10: no ordering or positivity check: when the second retrieved event
precedes the first, the operation still succeeds and persists a
DailyAttendance with negative hours. -/
theorem daily_no_order_check (db : DB) (u : Nat) (fn : String) (aid : Int)
    (date : Datetime) (e0 e1 : Attendance) (rest : List Attendance)
    (hev : eventsFor db u date = e0 :: e1 :: rest)
    (hlt : e1.created_at.tsSec < e0.created_at.tsSec) :
    ∃ r : DailyAttendance,
      (create_daily_attendance db u fn aid date).1 = .ok r ∧
      r.daily_attendance_hours < 0 ∧
      (create_daily_attendance db u fn aid date).2.daily = db.daily ++ [r] := by
  unfold create_daily_attendance
  rw [hev]
  refine ⟨_, rfl, ?_, rfl⟩
  have hneg : e1.created_at.tsSec - e0.created_at.tsSec < 0 := by linarith
  exact div_neg_of_neg_of_pos hneg (by norm_num)

theorem daily_no_order_check_witness :
    ∃ r : DailyAttendance,
      (create_daily_attendance dbW4 0 "a" 1 ⟨2, 0⟩).1 = .ok r ∧
      r.daily_attendance_hours < 0 ∧
      (create_daily_attendance dbW4 0 "a" 1 ⟨2, 0⟩).2.daily = dbW4.daily ++ [r] :=
  daily_no_order_check dbW4 0 "a" 1 ⟨2, 0⟩ ⟨10, 0, ⟨2, 30000⟩⟩
    ⟨11, 0, ⟨2, 100⟩⟩ [] (by decide) (by norm_num [Datetime.tsSec])

/-! ### Week boundary claim -/

/-- C3: for every input date, `start_date` is the input minus
`weekday` days and `end_date` is `start_date` plus 6 days, both keeping
only the day component fixed by the day of the input (independent of its
time-of-day); for a Wednesday input (weekday = 2) the start day is the
Monday of that week (weekday 0, two days back) and the end day the
following Sunday (weekday 6, four days ahead). -/
theorem week_boundary (d : Datetime) :
    (weekStart d).day = d.day - d.weekday ∧
    (weekEnd d).day = (weekStart d).day + 6 ∧
    (∀ t : ℚ, (weekStart ⟨d.day, t⟩).day = (weekStart d).day ∧
      (weekEnd ⟨d.day, t⟩).day = (weekEnd d).day) ∧
    (d.weekday = 2 →
      (weekStart d).day = d.day - 2 ∧ (weekStart d).day % 7 = 0 ∧
      (weekEnd d).day = d.day + 4 ∧ (weekEnd d).day % 7 = 6) := by
  have hs : (weekStart d).day = d.day - d.day % 7 := rfl
  have he : (weekEnd d).day = d.day - d.day % 7 + 6 := rfl
  refine ⟨rfl, by rw [he, hs], fun t => ⟨rfl, rfl⟩, fun h => ?_⟩
  have hw : d.day % 7 = 2 := h
  refine ⟨?_, ?_, ?_, ?_⟩ <;> simp only [hs, he] <;> omega

theorem week_boundary_witness :
    (weekStart ⟨23, 540⟩).day = 23 - 2 ∧ (weekStart ⟨23, 540⟩).day % 7 = 0 ∧
    (weekEnd ⟨23, 540⟩).day = 23 + 4 ∧ (weekEnd ⟨23, 540⟩).day % 7 = 6 :=
  (week_boundary ⟨23, 540⟩).2.2.2 (by decide)

/-! ### Helper lemmas about first-match and first-update on lists -/

theorem updateFirst_of_find?_eq_some {α : Type} (p : α → Bool) (f : α → α)
    (l : List α) (b : α) (h : l.find? p = some b) :
    ∃ l1 l2, l = l1 ++ b :: l2 ∧ (∀ x ∈ l1, p x = false) ∧ p b = true ∧
      updateFirst p f l = l1 ++ f b :: l2 := by
  induction l with
  | nil => simp [List.find?] at h
  | cons x xs ih =>
    by_cases hp : p x
    · rw [List.find?_cons_of_pos _ hp] at h
      obtain rfl : x = b := Option.some.inj h
      exact ⟨[], xs, rfl, by simp, hp, by simp [updateFirst, hp]⟩
    · rw [List.find?_cons_of_neg _ hp] at h
      obtain ⟨l1, l2, hl, hl1, hpb, hupd⟩ := ih h
      exact ⟨x :: l1, l2, by simp [hl], by
        intro y hy
        rcases List.mem_cons.mp hy with rfl | hy
        · exact Bool.eq_false_iff.mpr hp
        · exact hl1 y hy, hpb, by simp [updateFirst, hp, hupd]⟩

theorem find?_of_mem_countP_le_one {α : Type} (p : α → Bool) (l : List α)
    (b : α) (hb : b ∈ l) (hpb : p b = true) (h1 : l.countP p ≤ 1) :
    l.find? p = some b := by
  induction l with
  | nil => simp at hb
  | cons x xs ih =>
    by_cases hp : p x
    · rw [List.find?_cons_of_pos _ hp]
      rcases List.mem_cons.mp hb with rfl | hbx
      · rfl
      · exfalso
        have hpos : 0 < xs.countP p := List.countP_pos_iff.mpr ⟨b, hbx, hpb⟩
        rw [List.countP_cons_of_pos _ _ hp] at h1
        omega
    · rw [List.find?_cons_of_neg _ hp]
      rcases List.mem_cons.mp hb with rfl | hbx
      · exact absurd hpb (by simp [hp])
      · exact ih hbx (by rwa [List.countP_cons_of_neg _ _ hp] at h1)

theorem mem_updateFirst_or {α : Type} (p : α → Bool) (f : α → α)
    (l : List α) (b : α) (hb : b ∈ l) :
    b ∈ updateFirst p f l ∨ f b ∈ updateFirst p f l := by
  induction l with
  | nil => simp at hb
  | cons x xs ih =>
    rcases List.mem_cons.mp hb with rfl | hbx
    · by_cases hp : p b
      · right; simp [updateFirst, hp]
      · left; simp [updateFirst, hp]
    · by_cases hp : p x
      · left; simp [updateFirst, hp, List.mem_cons]; right; exact hbx
      · rcases ih hbx with h | h
        · left; simp [updateFirst, hp, List.mem_cons]; right; exact h
        · right; simp [updateFirst, hp, List.mem_cons]; right; exact h

theorem countP_updateFirst {α : Type} (q p : α → Bool) (f : α → α)
    (hf : ∀ x, q (f x) = q x) (l : List α) :
    (updateFirst p f l).countP q = l.countP q := by
  induction l with
  | nil => rfl
  | cons x xs ih =>
    by_cases hp : p x
    · simp [updateFirst, hp]
      by_cases hq : q x
      · rw [List.countP_cons_of_pos _ _ (by rw [hf]; exact hq),
          List.countP_cons_of_pos _ _ hq]
      · rw [List.countP_cons_of_neg _ _ (by simp [hf, hq]),
          List.countP_cons_of_neg _ _ (by simp [hq])]
    · by_cases hq : q x
      · simp only [updateFirst, if_neg hp]
        rw [List.countP_cons_of_pos _ _ hq, List.countP_cons_of_pos _ _ hq, ih]
      · simp only [updateFirst, if_neg hp]
        rw [List.countP_cons_of_neg _ _ (by simp [hq]),
          List.countP_cons_of_neg _ _ (by simp [hq]), ih]

/-! ### Weekly aggregator claims -/

/-- C5: when no weekly row of the user covers the date, the aggregator
appends one new row carrying the supplied daily hours and the computed
Monday/Sunday window, and returns it; nothing else changes. -/
theorem weekly_create_bucket (db : DB) (u : Nat) (fn : String) (aid : Int)
    (h : ℚ) (date : Datetime)
    (hnone : ∀ b ∈ db.weekly, weeklyMatchesDay u date.day b = false) :
    ∃ r : WeeklyAttendance,
      create_weekly_attendance_or_update db u fn aid h date =
        (r, { db with weekly := db.weekly ++ [r], nextId := db.nextId + 1 }) ∧
      r.weekly_attendance_hours = h ∧ r.user_id = u ∧
      r.start_date = weekStart date ∧ r.end_date = weekEnd date ∧
      r.start_date.day = date.day - date.weekday ∧
      r.end_date.day = r.start_date.day + 6 := by
  have hfind : findBucket db u date = none :=
    List.find?_eq_none.mpr fun x hx => by simp [hnone x hx]
  unfold create_weekly_attendance_or_update
  rw [hfind]
  exact ⟨_, rfl, rfl, rfl, rfl, rfl, rfl, rfl⟩

theorem weekly_create_bucket_witness :
    ∃ r : WeeklyAttendance,
      create_weekly_attendance_or_update dbEmpty 3 "n" 1 (5 : ℚ) ⟨9, 100⟩ =
        (r, { dbEmpty with weekly := dbEmpty.weekly ++ [r], nextId := dbEmpty.nextId + 1 }) ∧
      r.weekly_attendance_hours = 5 ∧ r.user_id = 3 ∧
      r.start_date = weekStart ⟨9, 100⟩ ∧ r.end_date = weekEnd ⟨9, 100⟩ ∧
      r.start_date.day = (9 : Int) - (⟨9, 100⟩ : Datetime).weekday ∧
      r.end_date.day = r.start_date.day + 6 :=
  weekly_create_bucket dbEmpty 3 "n" 1 5 ⟨9, 100⟩ (by intro b hb; simp [dbEmpty] at hb)

theorem create_weekly_eq_update (db : DB) (u : Nat) (fn : String)
    (aid : Int) (h : ℚ) (date : Datetime) (b : WeeklyAttendance)
    (hfind : findBucket db u date = some b) :
    create_weekly_attendance_or_update db u fn aid h date =
      (foldHours h b, { db with
        weekly := updateFirst (weeklyMatchesDay u date.day) (foldHours h) db.weekly }) := by
  unfold create_weekly_attendance_or_update
  rw [hfind]

/-- C9: when a matching weekly row exists, only its
`weekly_attendance_hours` is incremented; its id, user, name, attend id
and (in particular) its stored `start_date`/`end_date` are untouched —
the freshly computed window for the input date is discarded — and every
other row and table is left as it was. -/
theorem weekly_update_frame (db : DB) (u : Nat) (fn : String) (aid : Int)
    (h : ℚ) (date : Datetime) (b : WeeklyAttendance)
    (hfind : findBucket db u date = some b) :
    ∃ (r : WeeklyAttendance) (l1 l2 : List WeeklyAttendance),
      create_weekly_attendance_or_update db u fn aid h date =
        (r, { db with weekly := l1 ++ r :: l2 }) ∧
      db.weekly = l1 ++ b :: l2 ∧
      (∀ x ∈ l1, weeklyMatchesDay u date.day x = false) ∧
      r.id = b.id ∧ r.user_id = b.user_id ∧ r.full_name = b.full_name ∧
      r.attend_id = b.attend_id ∧ r.start_date = b.start_date ∧
      r.end_date = b.end_date ∧
      r.weekly_attendance_hours = b.weekly_attendance_hours + h := by
  obtain ⟨l1, l2, hl, hl1, hpb, hupd⟩ :=
    updateFirst_of_find?_eq_some (weeklyMatchesDay u date.day)
      (foldHours h) db.weekly b hfind
  refine ⟨foldHours h b, l1, l2, ?_, hl, hl1, rfl, rfl, rfl, rfl, rfl, rfl, rfl⟩
  rw [create_weekly_eq_update db u fn aid h date b hfind, hupd]

theorem weekly_update_frame_witness :
    ∃ (r : WeeklyAttendance) (l1 l2 : List WeeklyAttendance),
      create_weekly_attendance_or_update dbW5 3 "m" 2 (4 : ℚ) ⟨9, 700⟩ =
        (r, { dbW5 with weekly := l1 ++ r :: l2 }) ∧
      dbW5.weekly = l1 ++ (⟨4, 3, "n", 1, 5, ⟨7, 100⟩, ⟨13, 100⟩⟩ : WeeklyAttendance) :: l2 ∧
      (∀ x ∈ l1, weeklyMatchesDay 3 (⟨9, 700⟩ : Datetime).day x = false) ∧
      r.id = 4 ∧ r.user_id = 3 ∧ r.full_name = "n" ∧ r.attend_id = 1 ∧
      r.start_date = ⟨7, 100⟩ ∧ r.end_date = ⟨13, 100⟩ ∧
      r.weekly_attendance_hours = 5 + 4 :=
  weekly_update_frame dbW5 3 "m" 2 4 ⟨9, 700⟩
    ⟨4, 3, "n", 1, 5, ⟨7, 100⟩, ⟨13, 100⟩⟩ (by decide)

/-- C6: the weekly lookup compares day components only: if `b` is a
weekly row of user `u` with a nonempty date window, and at most one row
covers any user/day pair, then an input datetime whose day is exactly
`b.start_date`'s day, and one whose day is exactly `b.end_date`'s day,
with arbitrary times of day, are both matched to that same row `b`. -/
theorem weekly_lookup_boundaries (db : DB) (u : Nat) (b : WeeklyAttendance)
    (t1 t2 : ℚ) (hb : b ∈ db.weekly) (hu : b.user_id = u)
    (hse : b.start_date.day ≤ b.end_date.day) (hone : AtMostOne db) :
    findBucket db u ⟨b.start_date.day, t1⟩ = some b ∧
    findBucket db u ⟨b.end_date.day, t2⟩ = some b := by
  constructor
  · exact find?_of_mem_countP_le_one _ _ b hb
      (by simp [weeklyMatchesDay, hu, hse]) (hone u b.start_date.day)
  · exact find?_of_mem_countP_le_one _ _ b hb
      (by simp [weeklyMatchesDay, hu, hse]) (hone u b.end_date.day)

theorem weekly_lookup_boundaries_witness :
    findBucket dbW5 3 ⟨(7 : Int), 55⟩ = some ⟨4, 3, "n", 1, 5, ⟨7, 100⟩, ⟨13, 100⟩⟩ ∧
    findBucket dbW5 3 ⟨(13 : Int), 0⟩ = some ⟨4, 3, "n", 1, 5, ⟨7, 100⟩, ⟨13, 100⟩⟩ :=
  weekly_lookup_boundaries dbW5 3 ⟨4, 3, "n", 1, 5, ⟨7, 100⟩, ⟨13, 100⟩⟩ 55 0
    (by decide) rfl (by decide)
    (by
      intro u day
      by_cases hm : weeklyMatchesDay u day ⟨4, 3, "n", 1, 5, ⟨7, 100⟩, ⟨13, 100⟩⟩ <;>
        simp [dbW5, List.countP_cons, hm])

/-! ### Preservation of the weekly invariants -/

theorem mem_of_mem_updateFirst {α : Type} (p : α → Bool) (f : α → α)
    (l : List α) (x : α) (hx : x ∈ updateFirst p f l) :
    x ∈ l ∨ ∃ y ∈ l, x = f y := by
  induction l with
  | nil => simp [updateFirst] at hx
  | cons a as ih =>
    by_cases hp : p a
    · simp only [updateFirst, if_pos hp] at hx
      rcases List.mem_cons.mp hx with rfl | hx
      · exact Or.inr ⟨a, List.mem_cons_self a as, rfl⟩
      · exact Or.inl (List.mem_cons_of_mem a hx)
    · simp only [updateFirst, if_neg hp] at hx
      rcases List.mem_cons.mp hx with rfl | hx
      · exact Or.inl (List.mem_cons_self x as)
      · rcases ih hx with h | ⟨y, hy, rfl⟩
        · exact Or.inl (List.mem_cons_of_mem a h)
        · exact Or.inr ⟨y, List.mem_cons_of_mem a hy, rfl⟩

theorem weeklyMatchesDay_foldHours (u : Nat) (day : Int) (h : ℚ)
    (x : WeeklyAttendance) :
    weeklyMatchesDay u day (foldHours h x) = weeklyMatchesDay u day x := rfl

theorem WFBucket_foldHours (h : ℚ) (x : WeeklyAttendance)
    (hx : WFBucket x) : WFBucket (foldHours h x) := hx

/-- Weeks are disjoint: two Monday-aligned 7-day windows covering a
common day coincide. -/
theorem aligned_window_eq (m m' x : Int) (hm : m % 7 = 0) (hm' : m' % 7 = 0)
    (h1 : m ≤ x) (h2 : x ≤ m + 6) (h3 : m' ≤ x) (h4 : x ≤ m' + 6) :
    m = m' := by omega

/-- One weekly-aggregation step keeps every bucket a Monday-aligned week
window and keeps at most one bucket per user per covered day. -/
theorem step_preserves_invariants (db : DB) (u : Nat) (fn : String)
    (aid : Int) (h : ℚ) (date : Datetime) (hwf : WF db)
    (hone : AtMostOne db) :
    WF (create_weekly_attendance_or_update db u fn aid h date).2 ∧
    AtMostOne (create_weekly_attendance_or_update db u fn aid h date).2 := by
  cases hf : findBucket db u date with
  | some b =>
    rw [create_weekly_eq_update db u fn aid h date b hf]
    constructor
    · intro x hx
      rcases mem_of_mem_updateFirst _ _ _ x hx with hx' | ⟨y, hy, rfl⟩
      · exact hwf x hx'
      · exact WFBucket_foldHours h y (hwf y hy)
    · intro u' day
      simpa [countP_updateFirst (weeklyMatchesDay u' day) _ _
        (weeklyMatchesDay_foldHours u' day h)] using hone u' day
  | none =>
    have hnone : ∀ x ∈ db.weekly, weeklyMatchesDay u date.day x = false :=
      fun x hx => Bool.eq_false_iff.mpr (List.find?_eq_none.mp hf x hx)
    unfold create_weekly_attendance_or_update
    rw [hf]
    constructor
    · intro x hx
      simp only [List.mem_append, List.mem_singleton] at hx
      rcases hx with hx | rfl
      · exact hwf x hx
      · constructor
        · rfl
        · show (date.day - date.day % 7) % 7 = 0
          omega
    · intro u' day
      simp only [List.countP_append]
      by_cases hq : weeklyMatchesDay u' day
          (WeeklyAttendance.mk db.nextId u fn aid h (weekStart date) (weekEnd date))
      · have hzero : db.weekly.countP (weeklyMatchesDay u' day) = 0 := by
          rw [List.countP_eq_zero]
          intro x hxmem hqx
          simp only [weeklyMatchesDay, Bool.and_eq_true, beq_iff_eq,
            decide_eq_true_eq] at hq hqx
          have hu' : u' = u := hq.1.1.symm
          have hxwf := hwf x hxmem
          obtain ⟨hxe, hxs⟩ := hxwf
          have hxstart : x.start_date.day = date.day - date.day % 7 := by
            have hms : (date.day - date.day % 7) % 7 = 0 := by omega
            have := aligned_window_eq x.start_date.day
              (date.day - date.day % 7) day hxs hms hqx.1.2
              (by omega) (by exact hq.1.2) (by
                show day ≤ date.day - date.day % 7 + 6
                have : (weekEnd date).day = date.day - date.day % 7 + 6 := rfl
                omega)
            exact this
          have hmatch : weeklyMatchesDay u date.day x = true := by
            simp only [weeklyMatchesDay, Bool.and_eq_true, beq_iff_eq,
              decide_eq_true_eq]
            refine ⟨⟨by rw [hqx.1.1, hu'], by omega⟩, by omega⟩
          have := hnone x hxmem
          rw [hmatch] at this
          exact Bool.true_eq_false.mp this
        simp [List.countP_cons, hq, hzero]
      · have : List.countP (weeklyMatchesDay u' day)
            [WeeklyAttendance.mk db.nextId u fn aid h (weekStart date) (weekEnd date)] = 0 := by
          simp [List.countP_cons, hq]
        rw [this]
        simpa using hone u' day

/-- Sequential weekly aggregation preserves the invariants. -/
theorem runWeekly_preserves_invariants (calls : List WeeklyCall) (db : DB)
    (hwf : WF db) (hone : AtMostOne db) :
    WF (runWeekly db calls) ∧ AtMostOne (runWeekly db calls) := by
  induction calls generalizing db with
  | nil => exact ⟨hwf, hone⟩
  | cons c cs ih =>
    have hstep := step_preserves_invariants db c.user_id c.full_name
      c.attend_id c.hours c.date hwf hone
    exact ih _ hstep.1 hstep.2

/-- C4: two sequential weekly aggregations for the same user and week
with daily hours 3 and 4 leave exactly one bucket, holding 7 hours (not
two buckets); and in general, starting from any state whose weekly rows
are well-formed week windows with at most one bucket per user per day,
any sequence of sequential aggregations keeps at most one weekly record
of a user covering any given date. -/
theorem weekly_accumulate_unique :
    (runWeekly dbEmpty
      [⟨7, "n", 1, 3, ⟨2, 540⟩⟩, ⟨7, "n", 1, 4, ⟨4, 600⟩⟩]).weekly =
      [⟨0, 7, "n", 1, 7, ⟨0, 540⟩, ⟨6, 540⟩⟩] ∧
    (∀ (db : DB) (calls : List WeeklyCall), WF db → AtMostOne db →
      AtMostOne (runWeekly db calls)) := by
  constructor
  · simp [runWeekly, create_weekly_attendance_or_update, findBucket, dbEmpty,
      weekStart, weekEnd, weeklyMatchesDay, updateFirst, foldHours,
      Datetime.weekday, Datetime.subDays, Datetime.addDays, List.find?]
    norm_num
  · exact fun db calls hwf hone =>
      (runWeekly_preserves_invariants calls db hwf hone).2

theorem weekly_accumulate_unique_witness :
    AtMostOne (runWeekly dbEmpty
      [⟨7, "n", 1, 3, ⟨2, 540⟩⟩, ⟨7, "n", 1, 4, ⟨4, 600⟩⟩]) :=
  weekly_accumulate_unique.2 dbEmpty
    [⟨7, "n", 1, 3, ⟨2, 540⟩⟩, ⟨7, "n", 1, 4, ⟨4, 600⟩⟩]
    (by intro b hb; simp [dbEmpty] at hb)
    (by intro u day; simp [dbEmpty, AtMostOne])

/-! ### Monotonicity / non-deletion of weekly buckets -/

/-- C8 counterexample: an aggregation step with a negative supplied daily
total decreases an existing bucket's hours (5 down to 2): the function
performs no sign check on `daily_attendance_hours`, so the claim that
hours never decrease over every step is false as stated. -/
theorem weekly_hours_can_decrease :
    dbC8.weekly = [bC8] ∧ bC8.weekly_attendance_hours = 5 ∧
    (create_weekly_attendance_or_update dbC8 3 "n" 1 (-3 : ℚ) ⟨2, 0⟩).2.weekly =
      [{ bC8 with weekly_attendance_hours := 2 }] ∧ ((2 : ℚ) < 5) := by
  refine ⟨rfl, rfl, ?_, by norm_num⟩
  simp [create_weekly_attendance_or_update, findBucket, dbC8, bC8,
    weeklyMatchesDay, updateFirst, foldHours]
  norm_num

/-- C8 (amended): no weekly-aggregation step, whatever the supplied daily
hours, ever deletes a bucket: every existing bucket survives with id,
user and window unchanged — the only transitions are bucket creation and
the fold; and whenever the supplied daily hours are nonnegative, the
hours of an existing bucket never decrease. -/
theorem weekly_never_deletes_monotone (db : DB) (u : Nat) (fn : String)
    (aid : Int) (h : ℚ) (date : Datetime) :
    ∀ b ∈ db.weekly,
      ∃ b' ∈ (create_weekly_attendance_or_update db u fn aid h date).2.weekly,
        b'.id = b.id ∧ b'.user_id = b.user_id ∧ b'.start_date = b.start_date ∧
        b'.end_date = b.end_date ∧
        (0 ≤ h → b.weekly_attendance_hours ≤ b'.weekly_attendance_hours) := by
  intro b hb
  cases hf : findBucket db u date with
  | some c =>
    rw [create_weekly_eq_update db u fn aid h date c hf]
    rcases mem_updateFirst_or (weeklyMatchesDay u date.day) (foldHours h)
        db.weekly b hb with hmem | hmem
    · exact ⟨b, hmem, rfl, rfl, rfl, rfl, fun _ => le_refl _⟩
    · exact ⟨foldHours h b, hmem, rfl, rfl, rfl, rfl,
        fun hh => le_add_of_nonneg_right hh⟩
  | none =>
    unfold create_weekly_attendance_or_update
    rw [hf]
    refine ⟨b, ?_, rfl, rfl, rfl, rfl, fun _ => le_refl _⟩
    exact List.mem_append_left _ hb

theorem weekly_never_deletes_monotone_witness :
    (∃ b' ∈ (create_weekly_attendance_or_update dbC8 3 "n" 1 (-3 : ℚ) ⟨2, 0⟩).2.weekly,
      b'.id = bC8.id ∧ b'.user_id = bC8.user_id ∧
      b'.start_date = bC8.start_date ∧ b'.end_date = bC8.end_date ∧
      ((0 : ℚ) ≤ -3 → bC8.weekly_attendance_hours ≤ b'.weekly_attendance_hours)) ∧
    (∃ b' ∈ (create_weekly_attendance_or_update dbC8 3 "n" 1 (4 : ℚ) ⟨2, 0⟩).2.weekly,
      b'.id = bC8.id ∧ b'.user_id = bC8.user_id ∧
      b'.start_date = bC8.start_date ∧ b'.end_date = bC8.end_date ∧
      ((0 : ℚ) ≤ 4 → bC8.weekly_attendance_hours ≤ b'.weekly_attendance_hours)) :=
  ⟨weekly_never_deletes_monotone dbC8 3 "n" 1 (-3) ⟨2, 0⟩ bC8 (by simp [dbC8]),
   weekly_never_deletes_monotone dbC8 3 "n" 1 4 ⟨2, 0⟩ bC8 (by simp [dbC8])⟩

end Attend
